import Mathlib

/-!
Verification of the IDArling core (event codec, replay, session state
machine).

This file gives a shallow embedding of `idarling/core/core.py` and
`idarling/core/events.py` and proves/refutes the frozen claims about them.

Python strings are modelled as lists of Unicode code points (`List Nat`),
Python byte strings as lists of bytes (`List Nat`, each `< 0x100`).
Fallible Python code (code paths that raise) is modelled with `Option`
or `Except`.  Host (IDA) primitives do not mutate our state; calls into
them are recorded as effect values or supplied as oracle parameters.
-/

namespace IdarlingSpec

/-! ## Python string codecs (`Event.encode` / `decode` / `encode_bytes` / `decode_bytes`)

`str.encode("utf-8")` / `bytes.decode("utf-8")` and the
`raw_unicode_escape` codec used by `encode_bytes` / `decode_bytes`. -/

/-- A Unicode scalar value: a code point outside the surrogate range.
`str.encode("utf-8")` raises on lone surrogates and is total elsewhere. -/
def isScalar (c : Nat) : Bool :=
  decide (c < 0x110000) && !(decide (0xD800 ≤ c) && decide (c ≤ 0xDFFF))

/-- UTF-8 encoding of one scalar value (the branch taken is determined by
the code point's magnitude, as in CPython's encoder). -/
def utf8EncodeChar (c : Nat) : List Nat :=
  if c < 0x80 then [c]
  else if c < 0x800 then [0xC0 + c / 0x40, 0x80 + c % 0x40]
  else if c < 0x10000 then
    [0xE0 + c / 0x1000, 0x80 + c / 0x40 % 0x40, 0x80 + c % 0x40]
  else
    [0xF0 + c / 0x40000, 0x80 + c / 0x1000 % 0x40, 0x80 + c / 0x40 % 0x40,
     0x80 + c % 0x40]

/-- Flatten encoding of a whole string. -/
def utf8EncodeAll : List Nat → List Nat
  | [] => []
  | c :: cs => utf8EncodeChar c ++ utf8EncodeAll cs

/-- `s.encode("utf-8")`: raises (`none`) iff some code point is a lone
surrogate (or out of Unicode range), otherwise the byte sequence. -/
def pyEncodeUtf8 (s : List Nat) : Option (List Nat) :=
  if s.all isScalar then some (utf8EncodeAll s) else none

/-- `b.decode("utf-8")` (strict, CPython): rejects leading bytes
`0x80-0xC1` and `0xF5-0xFF`, bad continuation bytes, overlong forms,
surrogates (`ED A0..`), and values above `U+10FFFF` (`F4 90..`). -/
def utf8Decode : List Nat → Option (List Nat)
  | [] => some []
  | b0 :: bs =>
    if b0 < 0x80 then Option.map (b0 :: ·) (utf8Decode bs)
    else if b0 < 0xC2 then none
    else if b0 < 0xE0 then
      if 1 ≤ bs.length then
        if 0x80 ≤ bs.getD 0 0 ∧ bs.getD 0 0 < 0xC0 then
          Option.map (((b0 - 0xC0) * 0x40 + (bs.getD 0 0 - 0x80)) :: ·)
            (utf8Decode (bs.drop 1))
        else none
      else none
    else if b0 < 0xF0 then
      if 2 ≤ bs.length then
        if (0x80 ≤ bs.getD 0 0 ∧ bs.getD 0 0 < 0xC0) ∧
            (0x80 ≤ bs.getD 1 0 ∧ bs.getD 1 0 < 0xC0) ∧
            (b0 = 0xE0 → 0xA0 ≤ bs.getD 0 0) ∧ (b0 = 0xED → bs.getD 0 0 < 0xA0) then
          Option.map
            (((b0 - 0xE0) * 0x1000 + (bs.getD 0 0 - 0x80) * 0x40 +
              (bs.getD 1 0 - 0x80)) :: ·)
            (utf8Decode (bs.drop 2))
        else none
      else none
    else if b0 < 0xF5 then
      if 3 ≤ bs.length then
        if (0x80 ≤ bs.getD 0 0 ∧ bs.getD 0 0 < 0xC0) ∧
            (0x80 ≤ bs.getD 1 0 ∧ bs.getD 1 0 < 0xC0) ∧
            (0x80 ≤ bs.getD 2 0 ∧ bs.getD 2 0 < 0xC0) ∧
            (b0 = 0xF0 → 0x90 ≤ bs.getD 0 0) ∧ (b0 = 0xF4 → bs.getD 0 0 < 0x90) then
          Option.map
            (((b0 - 0xF0) * 0x40000 + (bs.getD 0 0 - 0x80) * 0x1000 +
              (bs.getD 1 0 - 0x80) * 0x40 + (bs.getD 2 0 - 0x80)) :: ·)
            (utf8Decode (bs.drop 3))
        else none
      else none
    else none
termination_by l => l.length
decreasing_by
  all_goals simp_wf
  all_goals omega

/-- Lower-case hexadecimal digit, as emitted by CPython's
`raw_unicode_escape` encoder. -/
def hexDigit (d : Nat) : Nat :=
  if d < 10 then 0x30 + d else 0x57 + d

/-- `n` low hex digits of `v`, most significant first. -/
def hexDigitsAux : Nat → Nat → List Nat → List Nat
  | 0, _, acc => acc
  | n + 1, v, acc => hexDigitsAux n (v / 16) (hexDigit (v % 16) :: acc)

def hexDigits (n v : Nat) : List Nat := hexDigitsAux n v []

/-- `raw_unicode_escape` encoding of one code point: code points below
`0x100` pass through verbatim, the rest become `\uXXXX` / `\UXXXXXXXX`. -/
def rawEncodeChar (c : Nat) : List Nat :=
  if c < 0x100 then [c]
  else if c < 0x10000 then 0x5C :: 0x75 :: hexDigits 4 c
  else 0x5C :: 0x55 :: hexDigits 8 c

/-- `s.encode("raw_unicode_escape")` (total; escapes never fail). -/
def pyRawEncode : List Nat → List Nat
  | [] => []
  | c :: cs => rawEncodeChar c ++ pyRawEncode cs

/-- Value of one hex-digit byte, `none` for a non-hex byte. -/
def hexVal (b : Nat) : Option Nat :=
  if 0x30 ≤ b ∧ b ≤ 0x39 then some (b - 0x30)
  else if 0x41 ≤ b ∧ b ≤ 0x46 then some (b - 0x41 + 10)
  else if 0x61 ≤ b ∧ b ≤ 0x66 then some (b - 0x61 + 10)
  else none

/-- `b.decode("raw_unicode_escape")` (CPython): a `\uXXXX` or
`\UXXXXXXXX` escape is interpreted iff preceded by an odd number of
backslashes (a pair of backslashes passes through verbatim); any other
byte maps to the code point of the same value; a truncated or non-hex
escape, or a `\U` value above `U+10FFFF`, raises (`none`). -/
def rawDecode : List Nat → Option (List Nat)
  | [] => some []
  | b :: bs =>
    if b = 0x5C then
      if bs.length = 0 then some [0x5C]
      else if bs.getD 0 0 = 0x5C then
        Option.map (fun r => 0x5C :: 0x5C :: r) (rawDecode (bs.drop 1))
      else if bs.getD 0 0 = 0x75 then
        if 5 ≤ bs.length then
          match hexVal (bs.getD 1 0), hexVal (bs.getD 2 0), hexVal (bs.getD 3 0),
              hexVal (bs.getD 4 0) with
          | some v1, some v2, some v3, some v4 =>
            Option.map ((((v1 * 16 + v2) * 16 + v3) * 16 + v4) :: ·)
              (rawDecode (bs.drop 5))
          | _, _, _, _ => none
        else none
      else if bs.getD 0 0 = 0x55 then
        if 9 ≤ bs.length then
          match hexVal (bs.getD 1 0), hexVal (bs.getD 2 0), hexVal (bs.getD 3 0),
              hexVal (bs.getD 4 0), hexVal (bs.getD 5 0), hexVal (bs.getD 6 0),
              hexVal (bs.getD 7 0), hexVal (bs.getD 8 0) with
          | some v1, some v2, some v3, some v4, some v5, some v6, some v7, some v8 =>
            let v := ((((((v1 * 16 + v2) * 16 + v3) * 16 + v4) * 16 + v5) * 16 +
              v6) * 16 + v7) * 16 + v8
            if v ≤ 0x10FFFF then Option.map (v :: ·) (rawDecode (bs.drop 9)) else none
          | _, _, _, _, _, _, _, _ => none
        else none
      else Option.map (0x5C :: ·) (rawDecode bs)
    else Option.map (b :: ·) (rawDecode bs)
termination_by l => l.length
decreasing_by
  all_goals simp_wf
  all_goals omega

/-- No backslash in the byte string is immediately followed by `u` or
`U` (so no `raw_unicode_escape` escape sequence can start anywhere). -/
def noRawEscape : List Nat → Bool
  | [] => true
  | b :: bs =>
    if b = 0x5C ∧ (bs.headD 0 = 0x75 ∨ bs.headD 0 = 0x55) then false
    else noRawEscape bs

/-- A Python value reaching the codec helpers: `str` or `bytes`
(`isinstance` dispatch in the source). -/
inductive PyObj where
  | str (s : List Nat)
  | bytes (b : List Nat)
  deriving DecidableEq

namespace Event

/-- `Event.encode`: `bytes` pass through, `str` is UTF-8 encoded
(other types raise `NotImplementedError`, not representable here). -/
def encode : PyObj → Option (List Nat)
  | .bytes b => some b
  | .str s => pyEncodeUtf8 s

/-- `Event.decode`: `str` passes through, `bytes` are UTF-8 decoded. -/
def decode : PyObj → Option (List Nat)
  | .str s => some s
  | .bytes b => utf8Decode b

/-- `Event.encode_bytes`: `bytes` pass through, `str` is encoded with
`raw_unicode_escape`. -/
def encode_bytes : PyObj → Option (List Nat)
  | .bytes b => some b
  | .str s => some (pyRawEncode s)

/-- `Event.decode_bytes`: `str` passes through, `bytes` are decoded with
`raw_unicode_escape`. -/
def decode_bytes : PyObj → Option (List Nat)
  | .str s => some s
  | .bytes b => rawDecode b

end Event

/-! ## `LocalTypesChangedEvent.__call__` (events.py)

The payload is a list of `(old_tuple, new_tuple)` pairs; a falsy tuple
(`None` / empty) is `none`.  The calls into the shared local-type layer
(`DeleteType` / `InsertType` / `EditTypeInPlace`) are recorded as
`TypeOp` values; whether such a host call raises is supplied by an
oracle `hostOk`. -/

/-- The first element `old_tuple[0]` of a non-falsy old tuple (the only
part of it this code path reads). -/
structure OldTuple where
  fst : String
  deriving DecidableEq

/-- A non-falsy `new_tuple`, unpacked as
`name, parsed_list, type_fields, cmt, field_cmts = new_tuple`. -/
structure NewTuple where
  name : String
  parsedList : String
  typeFields : String
  cmt : String
  fieldCmts : String
  deriving DecidableEq

/-- The `LocalType(...)` value built in the `else` branch: the three
text fields are UTF-8 encoded (`.encode()`). -/
structure LocalType where
  name : String
  parsedList : String
  typeFields : List Nat
  cmt : List Nat
  fieldcmts : List Nat
  deriving DecidableEq

/-- `str.encode()` on a Lean string (always a valid scalar sequence). -/
def strEncodeUtf8 (s : String) : List Nat :=
  utf8EncodeAll (s.data.map Char.toNat)

/-- `LocalType(name=name, parsedList=parsed_list,
TypeFields=type_fields.encode(), cmt=cmt.encode(),
fieldcmts=field_cmts.encode())`. -/
def buildLocalType (n : NewTuple) : LocalType :=
  { name := n.name
    parsedList := n.parsedList
    typeFields := strEncodeUtf8 n.typeFields
    cmt := strEncodeUtf8 n.cmt
    fieldcmts := strEncodeUtf8 n.fieldCmts }

/-- A call into the shared local-type layer. -/
inductive TypeOp where
  | deleteT (ord : String)
  | insertT (t : LocalType) (replaceFlag : Bool)
  | editT (ord : String) (t : LocalType)
  deriving DecidableEq

/-- Outcome of one iteration of the loop body: either a host call that
succeeded, or a caught-and-logged exception. -/
inductive PairResult where
  | ok (op : TypeOp)
  | err
  deriving DecidableEq

/-- One iteration of the `for old_tuple, new_tuple in self.local_types`
body.  `(old, none)` deletes `old_tuple[0]`; `(none, some n)` inserts
with `replace=True`; `(old, some n)` edits in place; `(none, none)`
raises on `old_tuple[0]` (caught by the `except`); a raising host call
(`hostOk` false) is likewise caught. -/
def pairOutcome (hostOk : TypeOp → Bool) (old : Option OldTuple)
    (new : Option NewTuple) : PairResult :=
  match new with
  | none =>
    match old with
    | none => .err
    | some o => if hostOk (.deleteT o.fst) then .ok (.deleteT o.fst) else .err
  | some n =>
    let t := buildLocalType n
    match old with
    | none => if hostOk (.insertT t true) then .ok (.insertT t true) else .err
    | some o => if hostOk (.editT o.fst t) then .ok (.editT o.fst t) else .err

/-- `LocalTypesChangedEvent.__call__`: iterate over the pairs in order;
each pair's body is wrapped in `try/except`, so a failure is logged and
the loop continues.  Returns the successful host calls in order and the
number of caught exceptions (logged failures). -/
def localTypesApply (hostOk : TypeOp → Bool) :
    List (Option OldTuple × Option NewTuple) → List TypeOp × Nat
  | [] => ([], 0)
  | (old, new) :: rest =>
    let r := localTypesApply hostOk rest
    match pairOutcome hostOk old new with
    | .ok op => (op :: r.1, r.2)
    | .err => (r.1, r.2 + 1)

/-- Modelled from the spec: the three-way policy of §4.6 —
`(absent, new)` ⇒ insert-with-replace, `(old, absent)` ⇒ delete,
`(old, new)` ⇒ edit-in-place (nothing for two absent sides). -/
def policyOp : Option OldTuple → Option NewTuple → Option TypeOp
  | some o, none => some (.deleteT o.fst)
  | none, some n => some (.insertT (buildLocalType n) true)
  | some o, some n => some (.editT o.fst (buildLocalType n))
  | none, none => none

/-! ## `StrucMemberEvent._get_member_type` and `SegmDeletedEvent` (events.py) -/

/-- Host flag constants from `ida_bytes` (values from the IDA SDK). -/
def DT_TYPE : Nat := 0xF0000000
def FF_STRUCT : Nat := 0x60000000
def FF_STRLIT : Nat := 0x50000000

/-- `ida_bytes.is_struct(f)`. -/
def is_struct (f : Nat) : Bool := f &&& DT_TYPE = FF_STRUCT

/-- `ida_bytes.is_strlit(f)`. -/
def is_strlit (f : Nat) : Bool := f &&& DT_TYPE = FF_STRLIT

/-- `ida_bytes.off_flag()`. -/
def off_flag : Nat := 0x500000

/-- `ida_bytes.enum_flag()`. -/
def enum_flag : Nat := 0x800000

/-- The `extra` payload dictionary of a struct-member event; every key
it may carry, each possibly absent. -/
structure MemberExtra where
  struc_name : Option String := none
  flags : Option Int := none
  base : Option Int := none
  target : Option Int := none
  tdelta : Option Int := none
  serial : Option Int := none
  tid : Option Int := none
  strtype : Option Int := none
  deriving DecidableEq

/-- `ida_nalt.refinfo_t` as initialised by `mt.ri.init(...)`. -/
structure RefInfo where
  flags : Int
  base : Int
  target : Int
  tdelta : Int
  deriving DecidableEq

/-- The enum member-type descriptor `mt.ec`. -/
structure EnumConst where
  serial : Int
  tid : Int
  deriving DecidableEq

/-- `ida_nalt.opinfo_t` with the components this code may populate. -/
structure OpInfoT where
  tid : Option Int := none
  ri : Option RefInfo := none
  ec : Option EnumConst := none
  strtype : Option Int := none
  deriving DecidableEq

/-- `StrucMemberEvent._get_member_type(type_flag, extra)`.  A mandatory
`extra[...]` access raises `KeyError` when absent (`none` result);
`extra.get('tid', 0)` defaults to `0`.  `get_struc_id` is the host
name-lookup primitive, passed as a parameter. -/
def get_member_type (get_struc_id : String → Int) (type_flag : Nat)
    (extra : MemberExtra) : Option OpInfoT := do
  let mt : OpInfoT := {}
  let mt ←
    if is_struct type_flag then do
      let sn ← extra.struc_name
      pure { mt with tid := some (get_struc_id sn) }
    else pure mt
  let mt ←
    if type_flag &&& off_flag ≠ 0 then do
      let f ← extra.flags
      let b ← extra.base
      let t ← extra.target
      let d ← extra.tdelta
      pure { mt with ri := some ⟨f, b, t, d⟩ }
    else pure mt
  let mt ←
    if type_flag &&& enum_flag ≠ 0 then do
      let s ← extra.serial
      pure { mt with ec := some ⟨s, extra.tid.getD 0⟩ }
    else pure mt
  let mt ←
    if is_strlit type_flag then do
      let st ← extra.strtype
      pure { mt with strtype := some st }
    else pure mt
  pure mt

/-- `ida_segment.SEGMOD_SILENT` (IDA SDK value). -/
def SEGMOD_SILENT : Nat := 4

/-- A decoded `segm_deleted_event`; `flags` is `none` when the peer's
event predates IDA 7.7 and the attribute is missing. -/
structure SegmDeletedEvent where
  ea : Nat
  flags : Option Nat
  deriving DecidableEq

/-- The host call performed by `SegmDeletedEvent.__call__`. -/
inductive SegEffect where
  | delSegm (ea : Nat) (flags : Nat)
  deriving DecidableEq

/-- `SegmDeletedEvent.__call__`: `if not hasattr(self, 'flags'):
self.flags = 0`, then `ida_segment.del_segm(ea, flags | SEGMOD_SILENT)`. -/
def segmDeletedCall (e : SegmDeletedEvent) : SegEffect :=
  let flags := match e.flags with
    | none => 0
    | some f => f
  .delSegm e.ea (flags ||| SEGMOD_SILENT)

/-! ## `RangeCmtChangedEvent.__call__` (events.py) -/

/-- `ida_range.RANGE_KIND_FUNC` / `RANGE_KIND_SEGMENT` (IDA SDK). -/
def RANGE_KIND_FUNC : Nat := 1
def RANGE_KIND_SEGMENT : Nat := 2

structure RangeCmtChangedEvent where
  kind : Nat
  start_ea : Nat
  end_ea : Nat
  cmt : String
  rptble : Bool
  deriving DecidableEq

/-- The comment mutation primitives this event may invoke. -/
inductive CmtEffect where
  | setFuncCmt (ea : Nat) (cmt : String) (rptble : Bool)
  | setSegmentCmt (ea : Nat) (cmt : String) (rptble : Bool)
  deriving DecidableEq

/-- `RangeCmtChangedEvent.__call__`: dispatch on the `kind`
discriminator; any value other than the two known range kinds raises
`Exception("Unsupported range kind: %d" % kind)` with no mutation. -/
def rangeCmtChangedCall (e : RangeCmtChangedEvent) : Except String CmtEffect :=
  if e.kind = RANGE_KIND_FUNC then
    .ok (.setFuncCmt e.start_ea e.cmt e.rptble)
  else if e.kind = RANGE_KIND_SEGMENT then
    .ok (.setSegmentCmt e.start_ea e.cmt e.rptble)
  else
    .error ("Unsupported range kind: " ++ toString e.kind)

/-! ## The `Core` module session state machine (core.py)

The netnode is an association list of string keys to string values
(IDA's per-idb hash storage).  Outgoing packets are logged in `sent`
(most recent first).  `pending` counts `ListSnapshots` deferreds whose
`snapshots_listed` callback has not fired yet.  The stray attribute
assignment `core.ticks = 0` in the `closebase` hook is modelled by
`ticksAttr` (distinct from the `tick` property backed by `_tick`). -/

/-- Python truthiness of an optional string field (`None` and `""` are
falsy). -/
def strTruthy : Option String → Bool
  | none => false
  | some v => v ≠ ""

/-- Association-list lookup for the netnode hash. -/
def lookupStr : List (String × String) → String → Option String
  | [], _ => none
  | (k, v) :: rest, key => if k = key then some v else lookupStr rest key

/-- `node.hashstr(key)`: the stored value, absent keys give a falsy
result. -/
def hashstr (node : List (String × String)) (key : String) : Option String :=
  lookupStr node key

/-- The `... or None` coercion applied to every loaded field. -/
def orNone (o : Option String) : Option String :=
  if strTruthy o then o else none

/-- `node.hashset_buf(key, val)`: overwrite or append. -/
def hashset : List (String × String) → String → String → List (String × String)
  | [], key, val => [(key, val)]
  | (k, v) :: rest, key, val =>
    if k = key then (k, val) :: rest else (k, v) :: hashset rest key val

/-- Decimal digits accumulator for `int(...)` (empty remainder accepted). -/
def pyNatAux : List Char → Nat → Option Nat
  | [], acc => some acc
  | c :: rest, acc =>
    if 48 ≤ c.toNat ∧ c.toNat ≤ 57 then pyNatAux rest (acc * 10 + (c.toNat - 48))
    else none

/-- `int(s)` for the `str(int)`-shaped strings this module stores: an
optional leading minus sign followed by decimal digits; anything else
raises (`none`). -/
def pyInt (s : String) : Option Int :=
  match s.data with
  | [] => none
  | c :: rest =>
    if c.toNat = 45 then
      match rest with
      | [] => none
      | _ => (pyNatAux rest 0).map (fun n => -(n : Int))
    else (pyNatAux (c :: rest) 0).map (fun n => (n : Int))

/-- `int(x or "0")` on an optional stored string.  (CPython raises on a
non-numeric string; every value this model stores or loads is numeric,
and a non-numeric one parses as `0` here.) -/
def pyIntOr0 : Option String → Int
  | none => 0
  | some v => if v = "" then 0 else (pyInt v).getD 0

/-- Packets sent through `network.send_packet`. -/
inductive Packet where
  | joinSession (project binary snapshot : Option String) (tick : Int)
  | leaveSession
  | listSnapshotsQuery (project binary : Option String)
  deriving DecidableEq

/-- The mutable state of the `Core` module plus its environment (its
netnode and the packet log). -/
structure CoreState where
  project : Option String
  binary : Option String
  snapshot : Option String
  tick : Int
  ticksAttr : Option Int
  users : List String
  session_joined : Bool
  hooked : Bool
  node : List (String × String)
  sent : List Packet
  pending : Nat
  deriving DecidableEq

/-- `Core.__init__`: no identifiers, `_tick = -1`, empty roster, not
joined, not hooked.  The netnode contents are whatever the idb already
holds. -/
def initState (node : List (String × String)) : CoreState :=
  { project := none, binary := none, snapshot := none, tick := -1
    ticksAttr := none, users := [], session_joined := false, hooked := false
    node := node, sent := [], pending := 0 }

/-- `Core.hook_all`: early-return when `_hooked` is already set. -/
def hook_all (s : CoreState) : CoreState :=
  if s.hooked then s else { s with hooked := true }

/-- `Core.unhook_all`: early-return when `_hooked` is already clear. -/
def unhook_all (s : CoreState) : CoreState :=
  if !s.hooked then s else { s with hooked := false }

/-- `Core.save_netnode`: write each of `project`/`binary`/`snapshot`
only when truthy, and `tick` only when it differs from the `-1`
construction sentinel. -/
def save_netnode (s : CoreState) : CoreState :=
  let n := s.node
  let n := if strTruthy s.project then hashset n "project" (s.project.getD "") else n
  let n := if strTruthy s.binary then hashset n "binary" (s.binary.getD "") else n
  let n := if strTruthy s.snapshot then hashset n "snapshot" (s.snapshot.getD "") else n
  let n := if s.tick ≠ -1 then hashset n "tick" (toString s.tick) else n
  { s with node := n }

/-- `Core.load_netnode_old`: remap the legacy keys
(`group`→`project`, `project`→`binary`, `database`→`snapshot`), destroy
the old netnode (`node.kill()`), and persist under the new keys. -/
def load_netnode_old (s : CoreState) : CoreState :=
  save_netnode
    { s with
      project := orNone (hashstr s.node "group")
      binary := orNone (hashstr s.node "project")
      snapshot := orNone (hashstr s.node "database")
      tick := pyIntOr0 (hashstr s.node "tick")
      node := [] }

/-- `Core.load_netnode`: take the legacy path when the `database` key
is (truthily) present, otherwise read the normal keys. -/
def load_netnode (s : CoreState) : CoreState :=
  if strTruthy (hashstr s.node "database") then load_netnode_old s
  else
    { s with
      project := orNone (hashstr s.node "project")
      binary := orNone (hashstr s.node "binary")
      snapshot := orNone (hashstr s.node "snapshot")
      tick := pyIntOr0 (hashstr s.node "tick") }

/-- The `snapshots_listed(reply)` callback body of `Core.join_session`:
if some listed snapshot name equals the local one, send `JoinSession`
with the current tick, set `_session_joined`, install the capture hooks
and clear the roster; otherwise return without doing anything. -/
def snapshots_listed (s : CoreState) (reply : List String) : CoreState :=
  if reply.any (fun d => some d = s.snapshot) then
    let s := { s with
      sent := Packet.joinSession s.project s.binary s.snapshot s.tick :: s.sent }
    let s := { s with session_joined := true }
    let s := hook_all s
    { s with users := [] }
  else s

/-- `Core.join_session`: with all three identifiers truthy, send a
`ListSnapshots.Query`; when `send_packet` returns a deferred
(`gotDeferred`), the callback is registered (counted in `pending`).
Otherwise set `_session_joined = False`. -/
def join_session (gotDeferred : Bool) (s : CoreState) : CoreState :=
  if strTruthy s.project && strTruthy s.binary && strTruthy s.snapshot then
    let s := { s with
      sent := Packet.listSnapshotsQuery s.project s.binary :: s.sent }
    if gotDeferred then { s with pending := s.pending + 1 } else s
  else { s with session_joined := false }

/-- `Core.leave_session`: early-return when not joined; send
`LeaveSession`, clear the roster and uninstall the hooks only when all
three identifiers are truthy; always end unjoined. -/
def leave_session (s : CoreState) : CoreState :=
  if !s.session_joined then s
  else
    let s :=
      if strTruthy s.project && strTruthy s.binary && strTruthy s.snapshot then
        let s := { s with sent := Packet.leaveSession :: s.sent }
        let s := { s with users := [] }
        unhook_all s
      else s
    { s with session_joined := false }

/-- Property setters (`Core.project = v` etc.): assign, then
write-through `save_netnode`. -/
def setProject (v : Option String) (s : CoreState) : CoreState :=
  save_netnode { s with project := v }

def setBinary (v : Option String) (s : CoreState) : CoreState :=
  save_netnode { s with binary := v }

def setSnapshot (v : Option String) (s : CoreState) : CoreState :=
  save_netnode { s with snapshot := v }

/-- The `IDBHooksCore.closebase` handler: `leave_session()`,
`save_netnode()`, the three identifier setters with `None` — and
`core.ticks = 0`, which assigns a stray `ticks` attribute instead of
the `tick` property. -/
def closebase (s : CoreState) : CoreState :=
  let s := leave_session s
  let s := save_netnode s
  let s := setProject none s
  let s := setBinary none s
  let s := setSnapshot none s
  { s with ticksAttr := some 0 }

/-- The session operations of the claims: `load_netnode`,
`join_session` and its `snapshots_listed` callback, `leave_session`,
the `closebase` handler, and the identifier setters. -/
inductive Op where
  | load
  | join (gotDeferred : Bool)
  | listed (reply : List String)
  | leave
  | close
  | setP (v : Option String)
  | setB (v : Option String)
  | setS (v : Option String)

/-- One operation.  The `snapshots_listed` callback can only fire while
a `ListSnapshots` deferred is outstanding. -/
def stepOp : Op → CoreState → CoreState
  | .load, s => load_netnode s
  | .join d, s => join_session d s
  | .listed reply, s =>
    if 0 < s.pending then
      { snapshots_listed s reply with pending := s.pending - 1 }
    else s
  | .leave, s => leave_session s
  | .close, s => closebase s
  | .setP v, s => setProject v s
  | .setB v, s => setBinary v s
  | .setS v, s => setSnapshot v s

/-- Reachability by any sequence of the session operations. -/
inductive Reach : CoreState → CoreState → Prop
  | refl (s : CoreState) : Reach s s
  | step {s t : CoreState} (o : Op) : Reach s t → Reach s (stepOp o t)

/-- Whether an operation is one of the identifier property setters. -/
def Op.isSetter : Op → Bool
  | .setP _ => true
  | .setB _ => true
  | .setS _ => true
  | _ => false

/-- Reachability by the session operations without the identifier
setters. -/
inductive ReachNS : CoreState → CoreState → Prop
  | refl (s : CoreState) : ReachNS s s
  | step {s t : CoreState} (o : Op) (h : o.isSetter = false) :
      ReachNS s t → ReachNS s (stepOp o t)

/-! ## An inductive invariant for the no-setter session machine -/

/-- All three session identifiers are (truthily) set. -/
def fieldsSet (s : CoreState) : Prop :=
  strTruthy s.project = true ∧ strTruthy s.binary = true ∧ strTruthy s.snapshot = true

/-- All three session identifiers are `None`. -/
def fieldsNone (s : CoreState) : Prop :=
  s.project = none ∧ s.binary = none ∧ s.snapshot = none

/-- The netnode holds a truthy value under `k`. -/
def keyTruthy (s : CoreState) (k : String) : Prop :=
  strTruthy (hashstr s.node k) = true

/-- The netnode holds all three identifiers under the current key
layout and no truthy legacy `database` key. -/
def keysOk (s : CoreState) : Prop :=
  keyTruthy s "project" ∧ keyTruthy s "binary" ∧ keyTruthy s "snapshot" ∧
    strTruthy (hashstr s.node "database") = false

/-- The inductive invariant: a truthy identifier rules out the legacy
layout and is persisted; a hooked state is joined with identifiers set
and persisted; an outstanding snapshot query has the identifiers
persisted and either all set or all cleared. -/
structure Inv (s : CoreState) : Prop where
  i0 : strTruthy s.project = true ∨ strTruthy s.binary = true ∨
      strTruthy s.snapshot = true →
    strTruthy (hashstr s.node "database") = false
  i4p : strTruthy s.project = true → keyTruthy s "project"
  i4b : strTruthy s.binary = true → keyTruthy s "binary"
  i4s : strTruthy s.snapshot = true → keyTruthy s "snapshot"
  i12 : s.hooked = true → s.session_joined = true ∧ fieldsSet s ∧ keysOk s
  i3 : 0 < s.pending → keysOk s
  i5 : 0 < s.pending → fieldsSet s ∨ fieldsNone s

/-! ## Concrete fixtures used by witnesses and counterexamples -/

/-- A joined, hooked session on `("p", "b", "s")` at tick `5`, with its
identifiers persisted and one remote user in the roster. -/
def joinedState : CoreState :=
  { project := some "p", binary := some "b", snapshot := some "s", tick := 5
    ticksAttr := none, users := ["alice"], session_joined := true, hooked := true
    node := [("project", "p"), ("binary", "b"), ("snapshot", "s"), ("tick", "5")]
    sent := [], pending := 0 }

/-- A netnode already holding the three identifiers under the current
key layout. -/
def seededNode : List (String × String) :=
  [("project", "p"), ("binary", "b"), ("snapshot", "s")]

/-- Load, join (deferred obtained), and receive a reply listing the
local snapshot: a joined and hooked session. -/
def joinedViaOps : CoreState :=
  stepOp (.listed ["s"]) (stepOp (.join true) (stepOp .load (initState seededNode)))

/-- Continue `joinedViaOps` with `core.project = None` followed by
`leave_session()`. -/
def setterThenLeave : CoreState :=
  stepOp .leave (stepOp (.setP none) joinedViaOps)

/-! ## Helper lemmas -/

theorem lookup_hashset (n : List (String × String)) (k v k' : String) :
    lookupStr (hashset n k v) k' = if k = k' then some v else lookupStr n k' := by
  induction n with
  | nil => simp [hashset, lookupStr]
  | cons a rest ih =>
    obtain ⟨ak, av⟩ := a
    simp only [hashset]
    by_cases hak : ak = k
    · subst hak
      by_cases h : ak = k' <;> simp [lookupStr, h]
    · simp only [if_neg hak, lookupStr]
      by_cases h : ak = k'
      · have hkk : ¬k = k' := fun hh => hak (h.trans hh.symm)
        simp [h, hkk]
      · simp [h, ih]

theorem orNone_truthy (x : Option String) : strTruthy (orNone x) = strTruthy x := by
  cases hx : strTruthy x
  · unfold orNone
    rw [hx]
    simp [strTruthy]
  · unfold orNone
    rw [hx]
    simpa using hx

theorem strTruthy_getD (x : Option String) (h : strTruthy x = true) :
    strTruthy (some (x.getD "")) = true := by
  cases x
  · simp [strTruthy] at h
  · simpa [Option.getD] using h

/-- What `save_netnode` does to the four keys the invariant tracks:
`database` is never written, and each identifier key stays truthy or
becomes truthy when its field is truthy. -/
theorem save_keys (s : CoreState) :
    hashstr (save_netnode s).node "database" = hashstr s.node "database" ∧
    (strTruthy s.project = true ∨ keyTruthy s "project" →
      keyTruthy (save_netnode s) "project") ∧
    (strTruthy s.binary = true ∨ keyTruthy s "binary" →
      keyTruthy (save_netnode s) "binary") ∧
    (strTruthy s.snapshot = true ∨ keyTruthy s "snapshot" →
      keyTruthy (save_netnode s) "snapshot") := by
  refine ⟨?_, ?_, ?_, ?_⟩ <;>
    simp only [save_netnode, hashstr, keyTruthy] <;>
    split_ifs <;>
    simp_all [lookup_hashset, strTruthy_getD]

theorem hook_all_eq (x : CoreState) : hook_all x = { x with hooked := true } := by
  obtain ⟨pr, bi, sn, ti, ta, us, sj, hk, nd, st, pd⟩ := x
  cases hk <;> simp [hook_all]

theorem unhook_all_eq (x : CoreState) : unhook_all x = { x with hooked := false } := by
  obtain ⟨pr, bi, sn, ti, ta, us, sj, hk, nd, st, pd⟩ := x
  cases hk <;> simp [unhook_all]

/-- Closed form of the `snapshots_listed` callback body. -/
theorem snapshots_listed_eq (s : CoreState) (reply : List String) :
    snapshots_listed s reply =
      if reply.any (fun d => some d = s.snapshot) then
        { s with
          sent := Packet.joinSession s.project s.binary s.snapshot s.tick :: s.sent
          session_joined := true
          hooked := true
          users := [] }
      else s := by
  obtain ⟨pr, bi, sn, ti, ta, us, sj, hk, nd, st, pd⟩ := s
  simp only [snapshots_listed, hook_all]
  split_ifs <;> simp_all

/-! ### Preservation of the invariant by each no-setter operation -/

theorem inv_init (n0 : List (String × String)) : Inv (initState n0) := by
  refine ⟨?_, ?_, ?_, ?_, ?_, ?_, ?_⟩ <;> (intro hx; simp [initState, strTruthy] at hx)

theorem inv_load (s : CoreState) (h : Inv s) : Inv (load_netnode s) := by
  by_cases hdb : strTruthy (hashstr s.node "database") = true
  · rw [load_netnode, if_pos hdb, load_netnode_old]
    constructor
    · intro _
      rw [(save_keys _).1]
      simp [hashstr, lookupStr, strTruthy]
    · exact fun hp => (save_keys _).2.1 (Or.inl hp)
    · exact fun hp => (save_keys _).2.2.1 (Or.inl hp)
    · exact fun hp => (save_keys _).2.2.2 (Or.inl hp)
    · intro hh
      have := (h.i12 hh).2.2.2.2.2
      rw [hdb] at this
      simp at this
    · intro hp0
      have := (h.i3 hp0).2.2.2
      rw [hdb] at this
      simp at this
    · intro hp0
      have := (h.i3 hp0).2.2.2
      rw [hdb] at this
      simp at this
  · have hdbf : strTruthy (hashstr s.node "database") = false := by
      cases hx : strTruthy (hashstr s.node "database")
      · rfl
      · exact absurd hx hdb
    rw [load_netnode, if_neg (by simp [hdbf])]
    constructor
    · exact fun _ => hdbf
    · exact fun hp => (orNone_truthy _).symm.trans hp
    · exact fun hp => (orNone_truthy _).symm.trans hp
    · exact fun hp => (orNone_truthy _).symm.trans hp
    · intro hh
      obtain ⟨hj, _, hk⟩ := h.i12 hh
      exact ⟨hj,
        ⟨(orNone_truthy _).trans hk.1, (orNone_truthy _).trans hk.2.1,
          (orNone_truthy _).trans hk.2.2.1⟩, hk⟩
    · exact fun hp0 => h.i3 hp0
    · intro hp0
      obtain hk := h.i3 hp0
      exact Or.inl ⟨(orNone_truthy _).trans hk.1, (orNone_truthy _).trans hk.2.1,
        (orNone_truthy _).trans hk.2.2.1⟩

theorem inv_join (d : Bool) (s : CoreState) (h : Inv s) : Inv (join_session d s) := by
  by_cases hg : (strTruthy s.project && strTruthy s.binary && strTruthy s.snapshot) = true
  · obtain ⟨⟨hgp, hgb⟩, hgs⟩ :
        (strTruthy s.project = true ∧ strTruthy s.binary = true) ∧
          strTruthy s.snapshot = true := by
      have := hg
      simp [Bool.and_eq_true] at this
      exact ⟨⟨this.1.1, this.1.2⟩, this.2⟩
    have hks : keysOk s := ⟨h.i4p hgp, h.i4b hgb, h.i4s hgs, h.i0 (Or.inl hgp)⟩
    rw [join_session, if_pos hg]
    cases d
    · simp only [if_neg (by decide : ¬((false : Bool) = true))]
      exact ⟨h.i0, h.i4p, h.i4b, h.i4s, fun hh => h.i12 hh, fun hp0 => h.i3 hp0,
        fun hp0 => h.i5 hp0⟩
    · simp only [if_pos rfl]
      exact ⟨h.i0, h.i4p, h.i4b, h.i4s, fun hh => h.i12 hh, fun _ => hks,
        fun _ => Or.inl ⟨hgp, hgb, hgs⟩⟩
  · rw [join_session, if_neg hg]
    refine ⟨h.i0, h.i4p, h.i4b, h.i4s, ?_, fun hp0 => h.i3 hp0, fun hp0 => h.i5 hp0⟩
    intro hh
    obtain ⟨_, hf, _⟩ := h.i12 hh
    exact absurd (by simp [hf.1, hf.2.1, hf.2.2]) hg

theorem inv_listed (r : List String) (s : CoreState) (h : Inv s) :
    Inv (stepOp (.listed r) s) := by
  simp only [stepOp]
  by_cases hp0 : 0 < s.pending
  · rw [if_pos hp0, snapshots_listed_eq]
    by_cases hm : (r.any fun d => some d = s.snapshot) = true
    · rw [if_pos hm]
      have hfs : fieldsSet s := by
        rcases h.i5 hp0 with hf | hn
        · exact hf
        · exfalso
          obtain ⟨dd, _, hdd⟩ := List.any_eq_true.mp hm
          rw [hn.2.2] at hdd
          simp at hdd
      have hks : keysOk s := h.i3 hp0
      exact ⟨fun _ => hks.2.2.2, fun _ => hks.1, fun _ => hks.2.1, fun _ => hks.2.2.1,
        fun _ => ⟨rfl, hfs, hks⟩, fun _ => hks, fun _ => Or.inl hfs⟩
    · rw [if_neg hm]
      exact ⟨h.i0, h.i4p, h.i4b, h.i4s, fun hh => h.i12 hh,
        fun hp1 => h.i3 (by omega), fun hp1 => h.i5 (by omega)⟩
  · rw [if_neg hp0]
    exact h

theorem inv_leave (s : CoreState) (h : Inv s) : Inv (leave_session s) := by
  rw [leave_session]
  by_cases hj : s.session_joined = true
  · rw [if_neg (by simp [hj])]
    by_cases hg : (strTruthy s.project && strTruthy s.binary && strTruthy s.snapshot) = true
    · rw [if_pos hg, unhook_all_eq]
      refine ⟨h.i0, h.i4p, h.i4b, h.i4s, ?_, fun hp0 => h.i3 hp0, fun hp0 => h.i5 hp0⟩
      intro hh
      simp at hh
    · rw [if_neg hg]
      refine ⟨h.i0, h.i4p, h.i4b, h.i4s, ?_, fun hp0 => h.i3 hp0, fun hp0 => h.i5 hp0⟩
      intro hh
      obtain ⟨_, hf, _⟩ := h.i12 hh
      exact absurd (by simp [hf.1, hf.2.1, hf.2.2]) hg
  · have hjf : s.session_joined = false := by
      cases hx : s.session_joined
      · rfl
      · exact absurd hx hj
    rw [if_pos (by simp [hjf])]
    exact h

theorem leave_unjoins (s : CoreState) (h : Inv s) :
    (leave_session s).session_joined = false ∧ (leave_session s).hooked = false := by
  rw [leave_session]
  by_cases hj : s.session_joined = true
  · rw [if_neg (by simp [hj])]
    by_cases hg : (strTruthy s.project && strTruthy s.binary && strTruthy s.snapshot) = true
    · rw [if_pos hg, unhook_all_eq]
      exact ⟨rfl, rfl⟩
    · rw [if_neg hg]
      refine ⟨rfl, ?_⟩
      cases hk : s.hooked
      · rfl
      · obtain ⟨_, hf, _⟩ := h.i12 hk
        exact absurd (by simp [hf.1, hf.2.1, hf.2.2]) hg
  · have hjf : s.session_joined = false := by
      cases hx : s.session_joined
      · rfl
      · exact absurd hx hj
    rw [if_pos (by simp [hjf])]
    refine ⟨hjf, ?_⟩
    cases hk : s.hooked
    · rfl
    · exact absurd ((h.i12 hk).1) (by simp [hjf])

theorem inv_close (s : CoreState) (h : Inv s) : Inv (closebase s) := by
  obtain ⟨hju, hhu⟩ := leave_unjoins s h
  have h0 : Inv (leave_session s) := inv_leave s h
  simp only [closebase, setSnapshot, setBinary, setProject]
  constructor
  · intro hx
    rcases hx with hx | hx | hx <;> simp [save_netnode, strTruthy] at hx
  · intro hx
    simp [save_netnode, strTruthy] at hx
  · intro hx
    simp [save_netnode, strTruthy] at hx
  · intro hx
    simp [save_netnode, strTruthy] at hx
  · intro hh
    have hh2 : (leave_session s).hooked = true := hh
    rw [hhu] at hh2
    simp at hh2
  · intro hp0
    have hk0 : keysOk (leave_session s) := h0.i3 hp0
    refine ⟨?_, ?_, ?_, ?_⟩
    · exact (save_keys _).2.1 (Or.inr ((save_keys _).2.1 (Or.inr ((save_keys _).2.1
        (Or.inr ((save_keys _).2.1 (Or.inr hk0.1)))))))
    · exact (save_keys _).2.2.1 (Or.inr ((save_keys _).2.2.1 (Or.inr ((save_keys _).2.2.1
        (Or.inr ((save_keys _).2.2.1 (Or.inr hk0.2.1)))))))
    · exact (save_keys _).2.2.2 (Or.inr ((save_keys _).2.2.2 (Or.inr ((save_keys _).2.2.2
        (Or.inr ((save_keys _).2.2.2 (Or.inr hk0.2.2.1)))))))
    · rw [(save_keys _).1, (save_keys _).1, (save_keys _).1, (save_keys _).1]
      exact hk0.2.2.2
  · intro _
    exact Or.inr ⟨rfl, rfl, rfl⟩

theorem inv_step (s : CoreState) (o : Op) (hns : o.isSetter = false) (h : Inv s) :
    Inv (stepOp o s) := by
  cases o with
  | load => exact inv_load s h
  | join d => exact inv_join d s h
  | listed r => exact inv_listed r s h
  | leave => exact inv_leave s h
  | close => exact inv_close s h
  | setP v => simp [Op.isSetter] at hns
  | setB v => simp [Op.isSetter] at hns
  | setS v => simp [Op.isSetter] at hns

theorem inv_reachNS (n0 : List (String × String)) (s : CoreState)
    (h : ReachNS (initState n0) s) : Inv s := by
  induction h with
  | refl => exact inv_init n0
  | step o hns _ ih => exact inv_step _ o hns ih

/-! ### UTF-8 codec lemmas -/

theorem utf8Decode_nil : utf8Decode [] = some [] := by
  rw [utf8Decode.eq_def]

theorem utf8Decode_cons (b0 : Nat) (bs : List Nat) :
    utf8Decode (b0 :: bs) =
      (if b0 < 0x80 then Option.map (b0 :: ·) (utf8Decode bs)
      else if b0 < 0xC2 then none
      else if b0 < 0xE0 then
        if 1 ≤ bs.length then
          if 0x80 ≤ bs.getD 0 0 ∧ bs.getD 0 0 < 0xC0 then
            Option.map (((b0 - 0xC0) * 0x40 + (bs.getD 0 0 - 0x80)) :: ·)
              (utf8Decode (bs.drop 1))
          else none
        else none
      else if b0 < 0xF0 then
        if 2 ≤ bs.length then
          if (0x80 ≤ bs.getD 0 0 ∧ bs.getD 0 0 < 0xC0) ∧
              (0x80 ≤ bs.getD 1 0 ∧ bs.getD 1 0 < 0xC0) ∧
              (b0 = 0xE0 → 0xA0 ≤ bs.getD 0 0) ∧ (b0 = 0xED → bs.getD 0 0 < 0xA0) then
            Option.map
              (((b0 - 0xE0) * 0x1000 + (bs.getD 0 0 - 0x80) * 0x40 +
                (bs.getD 1 0 - 0x80)) :: ·)
              (utf8Decode (bs.drop 2))
          else none
        else none
      else if b0 < 0xF5 then
        if 3 ≤ bs.length then
          if (0x80 ≤ bs.getD 0 0 ∧ bs.getD 0 0 < 0xC0) ∧
              (0x80 ≤ bs.getD 1 0 ∧ bs.getD 1 0 < 0xC0) ∧
              (0x80 ≤ bs.getD 2 0 ∧ bs.getD 2 0 < 0xC0) ∧
              (b0 = 0xF0 → 0x90 ≤ bs.getD 0 0) ∧ (b0 = 0xF4 → bs.getD 0 0 < 0x90) then
            Option.map
              (((b0 - 0xF0) * 0x40000 + (bs.getD 0 0 - 0x80) * 0x1000 +
                (bs.getD 1 0 - 0x80) * 0x40 + (bs.getD 2 0 - 0x80)) :: ·)
              (utf8Decode (bs.drop 3))
          else none
        else none
      else none) := by
  rw [utf8Decode.eq_def]

theorem utf8Decode_encodeChar (c : Nat) (bs : List Nat) (h : isScalar c = true) :
    utf8Decode (utf8EncodeChar c ++ bs) = Option.map (c :: ·) (utf8Decode bs) := by
  simp only [isScalar, Bool.and_eq_true, Bool.not_eq_true', Bool.and_eq_false_iff,
    decide_eq_true_eq, decide_eq_false_iff_not, not_le, not_lt] at h
  by_cases h1 : c < 0x80
  · unfold utf8EncodeChar
    rw [if_pos h1]
    simp only [List.cons_append, List.nil_append]
    rw [utf8Decode.eq_def]
    simp only [if_pos h1]
  · by_cases h2 : c < 0x800
    · have e1 : ¬(0xC0 + c / 0x40 < 0x80) := by omega
      have e2 : ¬(0xC0 + c / 0x40 < 0xC2) := by omega
      have e3 : 0xC0 + c / 0x40 < 0xE0 := by omega
      have e4 : 0x80 ≤ 0x80 + c % 0x40 ∧ 0x80 + c % 0x40 < 0xC0 := by omega
      have hv : (0xC0 + c / 0x40 - 0xC0) * 0x40 + (0x80 + c % 0x40 - 0x80) = c := by
        omega
      have hlen : 1 ≤ ((0x80 + c % 0x40) :: bs).length := by
        simp only [List.length_cons]
        omega
      have hget : ((0x80 + c % 0x40) :: bs).getD 0 0 = 0x80 + c % 0x40 := rfl
      have hdrop : ((0x80 + c % 0x40) :: bs).drop 1 = bs := rfl
      unfold utf8EncodeChar
      rw [if_neg h1, if_pos h2]
      simp only [List.cons_append, List.nil_append]
      rw [utf8Decode.eq_def]
      simp only [if_neg e1, if_neg e2, if_pos e3, hget, hdrop, if_pos hlen,
        if_pos e4, hv]
    · by_cases h3 : c < 0x10000
      · have e1 : ¬(0xE0 + c / 0x1000 < 0x80) := by omega
        have e2 : ¬(0xE0 + c / 0x1000 < 0xC2) := by omega
        have e3 : ¬(0xE0 + c / 0x1000 < 0xE0) := by omega
        have e4 : 0xE0 + c / 0x1000 < 0xF0 := by omega
        have e5 : (0x80 ≤ 0x80 + c / 0x40 % 0x40 ∧ 0x80 + c / 0x40 % 0x40 < 0xC0) ∧
            (0x80 ≤ 0x80 + c % 0x40 ∧ 0x80 + c % 0x40 < 0xC0) ∧
            (0xE0 + c / 0x1000 = 0xE0 → 0xA0 ≤ 0x80 + c / 0x40 % 0x40) ∧
            (0xE0 + c / 0x1000 = 0xED → 0x80 + c / 0x40 % 0x40 < 0xA0) := by omega
        have hv : (0xE0 + c / 0x1000 - 0xE0) * 0x1000 +
            (0x80 + c / 0x40 % 0x40 - 0x80) * 0x40 + (0x80 + c % 0x40 - 0x80) = c := by
          omega
        have hlen : 2 ≤ ((0x80 + c / 0x40 % 0x40) :: (0x80 + c % 0x40) :: bs).length := by
          simp only [List.length_cons]
          omega
        have hget0 : ((0x80 + c / 0x40 % 0x40) :: (0x80 + c % 0x40) :: bs).getD 0 0 =
            0x80 + c / 0x40 % 0x40 := rfl
        have hget1 : ((0x80 + c / 0x40 % 0x40) :: (0x80 + c % 0x40) :: bs).getD 1 0 =
            0x80 + c % 0x40 := rfl
        have hdrop : ((0x80 + c / 0x40 % 0x40) :: (0x80 + c % 0x40) :: bs).drop 2 =
            bs := rfl
        unfold utf8EncodeChar
        rw [if_neg h1, if_neg h2, if_pos h3]
        simp only [List.cons_append, List.nil_append]
        rw [utf8Decode.eq_def]
        simp only [if_neg e1, if_neg e2, if_neg e3, if_pos e4, hget0, hget1, hdrop,
          if_pos hlen, if_pos e5, hv]
      · have e1 : ¬(0xF0 + c / 0x40000 < 0x80) := by omega
        have e2 : ¬(0xF0 + c / 0x40000 < 0xC2) := by omega
        have e3 : ¬(0xF0 + c / 0x40000 < 0xE0) := by omega
        have e4 : ¬(0xF0 + c / 0x40000 < 0xF0) := by omega
        have e5 : 0xF0 + c / 0x40000 < 0xF5 := by omega
        have e6 : (0x80 ≤ 0x80 + c / 0x1000 % 0x40 ∧ 0x80 + c / 0x1000 % 0x40 < 0xC0) ∧
            (0x80 ≤ 0x80 + c / 0x40 % 0x40 ∧ 0x80 + c / 0x40 % 0x40 < 0xC0) ∧
            (0x80 ≤ 0x80 + c % 0x40 ∧ 0x80 + c % 0x40 < 0xC0) ∧
            (0xF0 + c / 0x40000 = 0xF0 → 0x90 ≤ 0x80 + c / 0x1000 % 0x40) ∧
            (0xF0 + c / 0x40000 = 0xF4 → 0x80 + c / 0x1000 % 0x40 < 0x90) := by omega
        have hv : (0xF0 + c / 0x40000 - 0xF0) * 0x40000 +
            (0x80 + c / 0x1000 % 0x40 - 0x80) * 0x1000 +
            (0x80 + c / 0x40 % 0x40 - 0x80) * 0x40 + (0x80 + c % 0x40 - 0x80) = c := by
          omega
        have hlen : 3 ≤ ((0x80 + c / 0x1000 % 0x40) :: (0x80 + c / 0x40 % 0x40) ::
            (0x80 + c % 0x40) :: bs).length := by
          simp only [List.length_cons]
          omega
        have hget0 : ((0x80 + c / 0x1000 % 0x40) :: (0x80 + c / 0x40 % 0x40) ::
            (0x80 + c % 0x40) :: bs).getD 0 0 = 0x80 + c / 0x1000 % 0x40 := rfl
        have hget1 : ((0x80 + c / 0x1000 % 0x40) :: (0x80 + c / 0x40 % 0x40) ::
            (0x80 + c % 0x40) :: bs).getD 1 0 = 0x80 + c / 0x40 % 0x40 := rfl
        have hget2 : ((0x80 + c / 0x1000 % 0x40) :: (0x80 + c / 0x40 % 0x40) ::
            (0x80 + c % 0x40) :: bs).getD 2 0 = 0x80 + c % 0x40 := rfl
        have hdrop : ((0x80 + c / 0x1000 % 0x40) :: (0x80 + c / 0x40 % 0x40) ::
            (0x80 + c % 0x40) :: bs).drop 3 = bs := rfl
        unfold utf8EncodeChar
        rw [if_neg h1, if_neg h2, if_neg h3]
        simp only [List.cons_append, List.nil_append]
        rw [utf8Decode.eq_def]
        simp only [if_neg e1, if_neg e2, if_neg e3, if_neg e4, if_pos e5, hget0,
          hget1, hget2, hdrop, if_pos hlen, if_pos e6, hv]

theorem utf8_decode_encodeAll (s : List Nat) (h : s.all isScalar = true) :
    utf8Decode (utf8EncodeAll s) = some s := by
  induction s with
  | nil => rw [utf8EncodeAll, utf8Decode]
  | cons c cs ih =>
    simp only [List.all_cons, Bool.and_eq_true] at h
    rw [utf8EncodeAll, utf8Decode_encodeChar c _ h.1, ih h.2]
    rfl

/-- Inversion: a successful strict UTF-8 decode yields scalar values
whose re-encoding is exactly the input bytes. -/
theorem utf8Decode_inv (n : Nat) :
    ∀ b s : List Nat, b.length ≤ n → utf8Decode b = some s →
      s.all isScalar = true ∧ utf8EncodeAll s = b := by
  induction n with
  | zero =>
    intro b s hb h
    cases b with
    | nil =>
      rw [utf8Decode_nil] at h
      injection h with h2
      subst h2
      exact ⟨rfl, rfl⟩
    | cons b0 bs => simp at hb
  | succ n ih =>
    intro b s hb h
    cases b with
    | nil =>
      rw [utf8Decode_nil] at h
      injection h with h2
      subst h2
      exact ⟨rfl, rfl⟩
    | cons b0 bs =>
      rw [utf8Decode_cons] at h
      by_cases h1 : b0 < 0x80
      · rw [if_pos h1] at h
        cases hd : utf8Decode bs with
        | none => rw [hd] at h; simp at h
        | some s1 =>
          rw [hd] at h
          simp only [Option.map] at h
          obtain rfl : b0 :: s1 = s := Option.some.inj h
          obtain ⟨ha, he⟩ := ih bs s1 (by simp only [List.length_cons] at hb; omega) hd
          refine ⟨?_, ?_⟩
          · simp only [List.all_cons, Bool.and_eq_true]
            refine ⟨?_, ha⟩
            simp only [isScalar, Bool.and_eq_true, Bool.not_eq_true',
              Bool.and_eq_false_iff, decide_eq_true_eq, decide_eq_false_iff_not,
              not_le, not_lt]
            omega
          · rw [utf8EncodeAll, he]
            unfold utf8EncodeChar
            rw [if_pos h1]
            simp
      · by_cases h2 : b0 < 0xC2
        · rw [if_neg h1, if_pos h2] at h
          simp at h
        · by_cases h3 : b0 < 0xE0
          · rw [if_neg h1, if_neg h2, if_pos h3] at h
            cases bs with
            | nil => simp at h
            | cons b1 bs1 =>
              rw [if_pos (by simp only [List.length_cons]; omega)] at h
              have hg : (b1 :: bs1).getD 0 0 = b1 := rfl
              have hdp : (b1 :: bs1).drop 1 = bs1 := rfl
              rw [hg, hdp] at h
              by_cases hc : 0x80 ≤ b1 ∧ b1 < 0xC0
              · rw [if_pos hc] at h
                cases hd : utf8Decode bs1 with
                | none => rw [hd] at h; simp at h
                | some s1 =>
                  rw [hd] at h
                  simp only [Option.map] at h
                  obtain rfl : ((b0 - 0xC0) * 0x40 + (b1 - 0x80)) :: s1 = s :=
                    Option.some.inj h
                  obtain ⟨ha, he⟩ :=
                    ih bs1 s1 (by simp only [List.length_cons] at hb; omega) hd
                  refine ⟨?_, ?_⟩
                  · simp only [List.all_cons, Bool.and_eq_true]
                    refine ⟨?_, ha⟩
                    simp only [isScalar, Bool.and_eq_true, Bool.not_eq_true',
                      Bool.and_eq_false_iff, decide_eq_true_eq,
                      decide_eq_false_iff_not, not_le, not_lt]
                    omega
                  · rw [utf8EncodeAll, he]
                    have hb0 : 0xC0 + ((b0 - 0xC0) * 0x40 + (b1 - 0x80)) / 0x40 = b0 := by
                      omega
                    have hb1 : 0x80 + ((b0 - 0xC0) * 0x40 + (b1 - 0x80)) % 0x40 = b1 := by
                      omega
                    unfold utf8EncodeChar
                    rw [if_neg (by omega), if_pos (by omega), hb0, hb1]
                    simp
              · rw [if_neg hc] at h
                simp at h
          · by_cases h4 : b0 < 0xF0
            · rw [if_neg h1, if_neg h2, if_neg h3, if_pos h4] at h
              cases bs with
              | nil => simp at h
              | cons b1 bs1 =>
                cases bs1 with
                | nil => rw [if_neg (by simp)] at h; simp at h
                | cons b2 bs2 =>
                  rw [if_pos (by simp only [List.length_cons]; omega)] at h
                  have hg0 : (b1 :: b2 :: bs2).getD 0 0 = b1 := rfl
                  have hg1 : (b1 :: b2 :: bs2).getD 1 0 = b2 := rfl
                  have hdp : (b1 :: b2 :: bs2).drop 2 = bs2 := rfl
                  rw [hg0, hg1, hdp] at h
                  by_cases hc : (0x80 ≤ b1 ∧ b1 < 0xC0) ∧ (0x80 ≤ b2 ∧ b2 < 0xC0) ∧
                      (b0 = 0xE0 → 0xA0 ≤ b1) ∧ (b0 = 0xED → b1 < 0xA0)
                  · rw [if_pos hc] at h
                    cases hd : utf8Decode bs2 with
                    | none => rw [hd] at h; simp at h
                    | some s1 =>
                      rw [hd] at h
                      simp only [Option.map] at h
                      obtain rfl : ((b0 - 0xE0) * 0x1000 + (b1 - 0x80) * 0x40 +
                          (b2 - 0x80)) :: s1 = s := Option.some.inj h
                      obtain ⟨ha, he⟩ :=
                        ih bs2 s1 (by simp only [List.length_cons] at hb; omega) hd
                      refine ⟨?_, ?_⟩
                      · simp only [List.all_cons, Bool.and_eq_true]
                        refine ⟨?_, ha⟩
                        simp only [isScalar, Bool.and_eq_true, Bool.not_eq_true',
                          Bool.and_eq_false_iff, decide_eq_true_eq,
                          decide_eq_false_iff_not, not_le, not_lt]
                        omega
                      · rw [utf8EncodeAll, he]
                        have hb0 : 0xE0 + ((b0 - 0xE0) * 0x1000 + (b1 - 0x80) * 0x40 +
                            (b2 - 0x80)) / 0x1000 = b0 := by omega
                        have hb1 : 0x80 + ((b0 - 0xE0) * 0x1000 + (b1 - 0x80) * 0x40 +
                            (b2 - 0x80)) / 0x40 % 0x40 = b1 := by omega
                        have hb2 : 0x80 + ((b0 - 0xE0) * 0x1000 + (b1 - 0x80) * 0x40 +
                            (b2 - 0x80)) % 0x40 = b2 := by omega
                        unfold utf8EncodeChar
                        rw [if_neg (by omega), if_neg (by omega), if_pos (by omega),
                          hb0, hb1, hb2]
                        simp
                  · rw [if_neg hc] at h
                    simp at h
            · by_cases h5 : b0 < 0xF5
              · rw [if_neg h1, if_neg h2, if_neg h3, if_neg h4, if_pos h5] at h
                cases bs with
                | nil => simp at h
                | cons b1 bs1 =>
                  cases bs1 with
                  | nil => rw [if_neg (by simp)] at h; simp at h
                  | cons b2 bs2 =>
                    cases bs2 with
                    | nil =>
                      rw [if_neg (by simp only [List.length_cons, List.length_nil]; omega)] at h
                      simp at h
                    | cons b3 bs3 =>
                      rw [if_pos (by simp only [List.length_cons]; omega)] at h
                      have hg0 : (b1 :: b2 :: b3 :: bs3).getD 0 0 = b1 := rfl
                      have hg1 : (b1 :: b2 :: b3 :: bs3).getD 1 0 = b2 := rfl
                      have hg2 : (b1 :: b2 :: b3 :: bs3).getD 2 0 = b3 := rfl
                      have hdp : (b1 :: b2 :: b3 :: bs3).drop 3 = bs3 := rfl
                      rw [hg0, hg1, hg2, hdp] at h
                      by_cases hc : (0x80 ≤ b1 ∧ b1 < 0xC0) ∧ (0x80 ≤ b2 ∧ b2 < 0xC0) ∧
                          (0x80 ≤ b3 ∧ b3 < 0xC0) ∧
                          (b0 = 0xF0 → 0x90 ≤ b1) ∧ (b0 = 0xF4 → b1 < 0x90)
                      · rw [if_pos hc] at h
                        cases hd : utf8Decode bs3 with
                        | none => rw [hd] at h; simp at h
                        | some s1 =>
                          rw [hd] at h
                          simp only [Option.map] at h
                          obtain rfl : ((b0 - 0xF0) * 0x40000 + (b1 - 0x80) * 0x1000 +
                              (b2 - 0x80) * 0x40 + (b3 - 0x80)) :: s1 = s :=
                            Option.some.inj h
                          obtain ⟨ha, he⟩ :=
                            ih bs3 s1 (by simp only [List.length_cons] at hb; omega) hd
                          refine ⟨?_, ?_⟩
                          · simp only [List.all_cons, Bool.and_eq_true]
                            refine ⟨?_, ha⟩
                            simp only [isScalar, Bool.and_eq_true, Bool.not_eq_true',
                              Bool.and_eq_false_iff, decide_eq_true_eq,
                              decide_eq_false_iff_not, not_le, not_lt]
                            omega
                          · rw [utf8EncodeAll, he]
                            have hb0 : 0xF0 + ((b0 - 0xF0) * 0x40000 +
                                (b1 - 0x80) * 0x1000 + (b2 - 0x80) * 0x40 +
                                (b3 - 0x80)) / 0x40000 = b0 := by omega
                            have hb1 : 0x80 + ((b0 - 0xF0) * 0x40000 +
                                (b1 - 0x80) * 0x1000 + (b2 - 0x80) * 0x40 +
                                (b3 - 0x80)) / 0x1000 % 0x40 = b1 := by omega
                            have hb2 : 0x80 + ((b0 - 0xF0) * 0x40000 +
                                (b1 - 0x80) * 0x1000 + (b2 - 0x80) * 0x40 +
                                (b3 - 0x80)) / 0x40 % 0x40 = b2 := by omega
                            have hb3 : 0x80 + ((b0 - 0xF0) * 0x40000 +
                                (b1 - 0x80) * 0x1000 + (b2 - 0x80) * 0x40 +
                                (b3 - 0x80)) % 0x40 = b3 := by omega
                            unfold utf8EncodeChar
                            rw [if_neg (by omega), if_neg (by omega),
                              if_neg (by omega), hb0, hb1, hb2, hb3]
                            simp
                      · rw [if_neg hc] at h
                        simp at h
              · rw [if_neg h1, if_neg h2, if_neg h3, if_neg h4, if_neg h5] at h
                simp at h

/-! ### raw_unicode_escape codec lemmas -/

theorem rawDecode_nil : rawDecode [] = some [] := by
  rw [rawDecode.eq_def]

theorem rawDecode_cons (b : Nat) (bs : List Nat) :
    rawDecode (b :: bs) =
      (if b = 0x5C then
        if bs.length = 0 then some [0x5C]
        else if bs.getD 0 0 = 0x5C then
          Option.map (fun r => 0x5C :: 0x5C :: r) (rawDecode (bs.drop 1))
        else if bs.getD 0 0 = 0x75 then
          if 5 ≤ bs.length then
            match hexVal (bs.getD 1 0), hexVal (bs.getD 2 0), hexVal (bs.getD 3 0),
                hexVal (bs.getD 4 0) with
            | some v1, some v2, some v3, some v4 =>
              Option.map ((((v1 * 16 + v2) * 16 + v3) * 16 + v4) :: ·)
                (rawDecode (bs.drop 5))
            | _, _, _, _ => none
          else none
        else if bs.getD 0 0 = 0x55 then
          if 9 ≤ bs.length then
            match hexVal (bs.getD 1 0), hexVal (bs.getD 2 0), hexVal (bs.getD 3 0),
                hexVal (bs.getD 4 0), hexVal (bs.getD 5 0), hexVal (bs.getD 6 0),
                hexVal (bs.getD 7 0), hexVal (bs.getD 8 0) with
            | some v1, some v2, some v3, some v4, some v5, some v6, some v7, some v8 =>
              let v := ((((((v1 * 16 + v2) * 16 + v3) * 16 + v4) * 16 + v5) * 16 +
                v6) * 16 + v7) * 16 + v8
              if v ≤ 0x10FFFF then Option.map (v :: ·) (rawDecode (bs.drop 9))
              else none
            | _, _, _, _, _, _, _, _ => none
          else none
        else Option.map (0x5C :: ·) (rawDecode bs)
      else Option.map (b :: ·) (rawDecode bs)) := by
  rw [rawDecode.eq_def]

theorem noRawEscape_tail {x : Nat} {l : List Nat} (h : noRawEscape (x :: l) = true) :
    noRawEscape l = true := by
  simp only [noRawEscape] at h
  by_cases hc : x = 0x5C ∧ (l.headD 0 = 0x75 ∨ l.headD 0 = 0x55)
  · rw [if_pos hc] at h
    exact absurd h (by decide)
  · rwa [if_neg hc] at h

theorem noRawEscape_head {x y : Nat} {l : List Nat}
    (h : noRawEscape (x :: y :: l) = true) : ¬(x = 0x5C ∧ (y = 0x75 ∨ y = 0x55)) := by
  intro hc
  simp only [noRawEscape, List.headD_cons] at h
  rw [if_pos hc] at h
  exact absurd h (by decide)

/-- Without any `\u` / `\U` escape start, `raw_unicode_escape` decoding
is the identity on byte values. -/
theorem rawDecode_noEsc (n : Nat) :
    ∀ b : List Nat, b.length ≤ n → noRawEscape b = true → rawDecode b = some b := by
  induction n with
  | zero =>
    intro b hb _
    cases b with
    | nil => exact rawDecode_nil
    | cons b0 bs => simp at hb
  | succ n ih =>
    intro b hb hne
    cases b with
    | nil => exact rawDecode_nil
    | cons b0 bs =>
      rw [rawDecode_cons]
      by_cases hb0 : b0 = 0x5C
      · subst hb0
        rw [if_pos rfl]
        cases bs with
        | nil => simp
        | cons b2 bs2 =>
          rw [if_neg (by simp)]
          have hg : (b2 :: bs2).getD 0 0 = b2 := rfl
          have hu := noRawEscape_head hne
          have hu1 : ¬b2 = 0x75 := fun hh => hu ⟨rfl, Or.inl hh⟩
          have hu2 : ¬b2 = 0x55 := fun hh => hu ⟨rfl, Or.inr hh⟩
          by_cases h2 : b2 = 0x5C
          · subst h2
            rw [hg, if_pos rfl]
            have hdp : ((0x5C : Nat) :: bs2).drop 1 = bs2 := rfl
            rw [hdp,
              ih bs2 (by simp only [List.length_cons] at hb; omega)
                (noRawEscape_tail (noRawEscape_tail hne))]
            rfl
          · rw [hg, if_neg h2, if_neg hu1, if_neg hu2,
              ih (b2 :: bs2)
                (by simp only [List.length_cons] at hb ⊢; omega)
                (noRawEscape_tail hne)]
            rfl
      · rw [if_neg hb0,
          ih bs (by simp only [List.length_cons] at hb; omega) (noRawEscape_tail hne)]
        rfl

/-- `raw_unicode_escape` encoding is the identity on code points below
`0x100`. -/
theorem pyRawEncode_id (b : List Nat) (hb : ∀ x ∈ b, x < 0x100) :
    pyRawEncode b = b := by
  induction b with
  | nil => rfl
  | cons c cs ih =>
    rw [pyRawEncode]
    unfold rawEncodeChar
    rw [if_pos (hb c (by simp))]
    rw [ih (fun x hx => hb x (by simp [hx]))]
    rfl

/-! ## Claim theorems -/

/-- C1: on a `ListSnapshots` reply, `JoinSession` (carrying the current
tick) is sent iff the reply lists an entry named like the local
snapshot; in that case `session_joined` becomes true, the roster is
cleared and the capture hooks are installed; otherwise nothing changes
(in particular `session_joined`, if false, stays false). -/
theorem join_gating (s : CoreState) (reply : List String) :
    snapshots_listed s reply =
      if reply.any (fun d => some d = s.snapshot) then
        { s with
          sent := Packet.joinSession s.project s.binary s.snapshot s.tick :: s.sent
          session_joined := true
          hooked := true
          users := [] }
      else s := by
  obtain ⟨pr, bi, sn, ti, ta, us, sj, hk, nd, st, pd⟩ := s
  simp only [snapshots_listed, hook_all]
  split_ifs <;> simp_all

/-- C2: loading a netnode in the legacy key layout
`{group, project, database, tick}` yields
`project = group`, `binary = project`, `snapshot = database`, the
parsed tick, destroys the old netnode and persists once under the new
keys; a subsequent load goes through the normal keys and changes
nothing. -/
theorem legacy_migration (s : CoreState) (g p d : String)
    (hg : g ≠ "") (hp : p ≠ "") (hd : d ≠ "")
    (hnode : s.node = [("group", g), ("project", p), ("database", d), ("tick", "5")]) :
    (load_netnode s).project = some g ∧
    (load_netnode s).binary = some p ∧
    (load_netnode s).snapshot = some d ∧
    (load_netnode s).tick = 5 ∧
    (load_netnode s).node =
      [("project", g), ("binary", p), ("snapshot", d), ("tick", "5")] ∧
    load_netnode (load_netnode s) = load_netnode s := by
  have h5 : pyIntOr0 (some "5") = 5 := by decide
  have hts : toString (5 : Int) = "5" := by decide
  obtain ⟨pr, bi, sn, ti, ta, us, sj, hk, nd, st, pd⟩ := s
  simp only at hnode
  subst hnode
  simp [load_netnode, load_netnode_old, save_netnode, hashstr, orNone, strTruthy,
    hashset, lookupStr, hg, hp, hd, h5, hts]

/-- C2 witness at the concrete legacy layout of the claim. -/
theorem legacy_migration_witness :
    (load_netnode (initState
      [("group", "g"), ("project", "p"), ("database", "d"), ("tick", "5")])).project =
        some "g" ∧
    (load_netnode (initState
      [("group", "g"), ("project", "p"), ("database", "d"), ("tick", "5")])).binary =
        some "p" ∧
    (load_netnode (initState
      [("group", "g"), ("project", "p"), ("database", "d"), ("tick", "5")])).snapshot =
        some "d" ∧
    (load_netnode (initState
      [("group", "g"), ("project", "p"), ("database", "d"), ("tick", "5")])).tick = 5 ∧
    (load_netnode (initState
      [("group", "g"), ("project", "p"), ("database", "d"), ("tick", "5")])).node =
      [("project", "g"), ("binary", "p"), ("snapshot", "d"), ("tick", "5")] ∧
    load_netnode (load_netnode (initState
      [("group", "g"), ("project", "p"), ("database", "d"), ("tick", "5")])) =
      load_netnode (initState
        [("group", "g"), ("project", "p"), ("database", "d"), ("tick", "5")]) :=
  legacy_migration _ "g" "p" "d" (by decide) (by decide) (by decide) rfl

/-- C4 (code-bug exhibit): closing the dataset from a joined session at
tick 5 does send `LeaveSession`, clear the roster, uninstall the hooks
and clear the in-memory identifiers — but `core.ticks = 0` assigns a
stray `ticks` attribute, so `tick` stays 5 both in memory and in the
netnode, and `save_netnode` skips falsy fields, so the persisted
identifiers are not cleared either. -/
theorem closebase_behavior :
    (closebase joinedState).sent = [Packet.leaveSession] ∧
    (closebase joinedState).users = [] ∧
    (closebase joinedState).hooked = false ∧
    (closebase joinedState).session_joined = false ∧
    (closebase joinedState).project = none ∧
    (closebase joinedState).binary = none ∧
    (closebase joinedState).snapshot = none ∧
    (closebase joinedState).tick = 5 ∧
    (closebase joinedState).ticksAttr = some 0 ∧
    hashstr (closebase joinedState).node "project" = some "p" ∧
    hashstr (closebase joinedState).node "binary" = some "b" ∧
    hashstr (closebase joinedState).node "snapshot" = some "s" ∧
    hashstr (closebase joinedState).node "tick" = some "5" := by decide

/-- C3 counterexample: the claimed invariant over all the session
operations (the identifier setters included) is false: after load,
join and a matching reply, `core.project = None` followed by
`leave_session()` reaches a state with the capture hooks still
installed (`_hooked = true`) but `session_joined = false`, because
`leave_session` skips `unhook_all` when the identifiers are not all
set. -/
theorem capture_invariant_counterexample :
    ¬ (∀ (n0 : List (String × String)) (s : CoreState),
        Reach (initState n0) s → s.hooked = true → s.session_joined = true) := by
  intro hclaim
  have hreach : Reach (initState seededNode) setterThenLeave :=
    Reach.step .leave (Reach.step (.setP none) (Reach.step (.listed ["s"])
      (Reach.step (.join true) (Reach.step .load (Reach.refl _)))))
  exact absurd (hclaim seededNode setterThenLeave hreach (by decide)) (by decide)

/-- C3 (amended): in every state reachable by the session operations
other than the identifier setters (load, join and its callback, leave,
dataset close), installed capture hooks imply a joined session. -/
theorem capture_disabled_when_unjoined (n0 : List (String × String)) (s : CoreState)
    (h : ReachNS (initState n0) s) (hh : s.hooked = true) : s.session_joined = true :=
  ((inv_reachNS n0 s h).i12 hh).1

/-- C3 witness: the load / join / matching-reply trace reaches a hooked
state, which the amended invariant shows is joined. -/
theorem capture_disabled_witness : joinedViaOps.session_joined = true :=
  capture_disabled_when_unjoined seededNode joinedViaOps
    (ReachNS.step (.listed ["s"]) rfl (ReachNS.step (.join true) rfl
      (ReachNS.step .load rfl (ReachNS.refl _)))) (by decide)

/-- C7: the range-kind discriminator is a closed enumeration: the
function range kind maps to the function-comment primitive, the segment
range kind to the segment-comment primitive, and every other value
raises the unsupported-range-kind error with no mutation performed. -/
theorem range_kind_closed (e : RangeCmtChangedEvent) :
    (e.kind = RANGE_KIND_FUNC →
      rangeCmtChangedCall e = .ok (.setFuncCmt e.start_ea e.cmt e.rptble)) ∧
    (e.kind = RANGE_KIND_SEGMENT →
      rangeCmtChangedCall e = .ok (.setSegmentCmt e.start_ea e.cmt e.rptble)) ∧
    (e.kind ≠ RANGE_KIND_FUNC → e.kind ≠ RANGE_KIND_SEGMENT →
      rangeCmtChangedCall e =
        .error ("Unsupported range kind: " ++ toString e.kind)) := by
  refine ⟨fun h => ?_, fun h => ?_, fun h1 h2 => ?_⟩
  · simp [rangeCmtChangedCall, h, RANGE_KIND_FUNC]
  · simp [rangeCmtChangedCall, h, RANGE_KIND_FUNC, RANGE_KIND_SEGMENT]
  · simp [rangeCmtChangedCall, h1, h2]

/-- C7 witness at the two known kinds and at the unsupported kind 7. -/
theorem range_kind_closed_witness :
    rangeCmtChangedCall ⟨1, 16, 32, "c", true⟩ = .ok (.setFuncCmt 16 "c" true) ∧
    rangeCmtChangedCall ⟨2, 16, 32, "c", false⟩ = .ok (.setSegmentCmt 16 "c" false) ∧
    rangeCmtChangedCall ⟨7, 16, 32, "c", true⟩ =
      .error ("Unsupported range kind: " ++ toString (7 : Nat)) :=
  ⟨(range_kind_closed _).1 rfl, (range_kind_closed _).2.1 rfl,
    (range_kind_closed _).2.2 (by decide) (by decide)⟩

/-- C9: `hook_all` is a no-op when already hooked and `unhook_all` a
no-op when already unhooked, so both are idempotent from any state. -/
theorem hook_unhook_idempotent (s : CoreState) :
    hook_all (hook_all s) = hook_all s ∧ unhook_all (unhook_all s) = unhook_all s := by
  obtain ⟨pr, bi, sn, ti, ta, us, sj, hk, nd, st, pd⟩ := s
  cases hk <;> simp [hook_all, unhook_all]

/-- C10: `save_netnode` writes a key only when its field is set:
falsy identifiers and the `-1` tick sentinel leave the previously
persisted value untouched; in particular assigning `None` to `project`
never deletes or overwrites its stored key. -/
theorem save_netnode_frame (s : CoreState) :
    (strTruthy s.project = false →
      hashstr (save_netnode s).node "project" = hashstr s.node "project") ∧
    (strTruthy s.binary = false →
      hashstr (save_netnode s).node "binary" = hashstr s.node "binary") ∧
    (strTruthy s.snapshot = false →
      hashstr (save_netnode s).node "snapshot" = hashstr s.node "snapshot") ∧
    (s.tick = -1 →
      hashstr (save_netnode s).node "tick" = hashstr s.node "tick") ∧
    hashstr (setProject none s).node "project" = hashstr s.node "project" := by
  refine ⟨fun h => ?_, fun h => ?_, fun h => ?_, fun h => ?_, ?_⟩ <;>
    simp only [save_netnode, setProject, hashstr] <;>
    split_ifs <;>
    simp_all [lookup_hashset, strTruthy]

/-- Connecting one loop iteration of `LocalTypesChangedEvent.__call__`
to the spec's three-way policy: the iteration succeeds with exactly the
policy's operation when the host accepts it, and is a caught error
otherwise. -/
theorem pairOutcome_eq_policy (hostOk : TypeOp → Bool) (old : Option OldTuple)
    (new : Option NewTuple) :
    pairOutcome hostOk old new =
      match Option.filter hostOk (policyOp old new) with
      | some op => .ok op
      | none => .err := by
  cases old <;> cases new <;>
    simp [pairOutcome, policyOp, Option.filter] <;>
    split_ifs <;> simp_all

/-- C5: replaying a `LocalTypesChangedEvent` processes the `(old, new)`
pairs in order, mapping each by the three-way policy (delete /
insert-with-replace / edit-in-place), and a failure on one pair (a
degenerate pair or a raising host call) is caught and counted without
preventing the remaining pairs from being applied. -/
theorem local_types_replay (hostOk : TypeOp → Bool)
    (pairs rest : List (Option OldTuple × Option NewTuple))
    (p : Option OldTuple × Option NewTuple) :
    ((localTypesApply hostOk pairs).1 =
      pairs.filterMap (fun q => Option.filter hostOk (policyOp q.1 q.2))) ∧
    (pairOutcome hostOk p.1 p.2 = .err →
      localTypesApply hostOk (p :: rest) =
        ((localTypesApply hostOk rest).1, (localTypesApply hostOk rest).2 + 1)) ∧
    (∀ op, pairOutcome hostOk p.1 p.2 = .ok op →
      localTypesApply hostOk (p :: rest) =
        (op :: (localTypesApply hostOk rest).1, (localTypesApply hostOk rest).2)) := by
  refine ⟨?_, fun herr => ?_, fun op hok => ?_⟩
  · induction pairs with
    | nil => simp [localTypesApply]
    | cons q qs ih =>
      obtain ⟨o, n⟩ := q
      simp only [localTypesApply, List.filterMap_cons, pairOutcome_eq_policy]
      cases hpol : Option.filter hostOk (policyOp o n) <;> simp [hpol, ih]
  · obtain ⟨o, n⟩ := p
    simp only [localTypesApply, herr]
  · obtain ⟨o, n⟩ := p
    simp only [localTypesApply, hok]

/-- C5 witness: a host that rejects deleting the type named `x` — the
failing middle pair is skipped, the following insert still happens. -/
theorem local_types_replay_witness :
    localTypesApply (fun op => decide (op ≠ TypeOp.deleteT "x"))
        ((some ⟨"x"⟩, none) :: [(none, some ⟨"n", "pl", "tf", "c", "fc"⟩)]) =
      ((localTypesApply (fun op => decide (op ≠ TypeOp.deleteT "x"))
          [(none, some ⟨"n", "pl", "tf", "c", "fc"⟩)]).1,
        (localTypesApply (fun op => decide (op ≠ TypeOp.deleteT "x"))
          [(none, some ⟨"n", "pl", "tf", "c", "fc"⟩)]).2 + 1) :=
  (local_types_replay _ [] _ _).2.1 (by decide)

/-- C6: a decoded event missing an optional newer-version field behaves
as if the field were zero — a segment-deleted event with no `flags`
attribute deletes with flags `0` (only `SEGMOD_SILENT` set), and a
struct-member extra record with no `tid` entry yields exactly the
member type obtained with `tid = 0`; in the enum-flag case the
descriptor built is `⟨serial, 0⟩`. -/
theorem missing_optional_fields (gsi : String → Int) (flag ea : Nat)
    (extra : MemberExtra) (h : extra.tid = none) :
    segmDeletedCall ⟨ea, none⟩ = segmDeletedCall ⟨ea, some 0⟩ ∧
    segmDeletedCall ⟨ea, none⟩ = .delSegm ea SEGMOD_SILENT ∧
    get_member_type gsi flag extra =
      get_member_type gsi flag { extra with tid := some 0 } ∧
    (is_struct flag = false → flag &&& off_flag = 0 → flag &&& enum_flag ≠ 0 →
      is_strlit flag = false → ∀ sr, extra.serial = some sr →
        get_member_type gsi flag extra = some { ec := some ⟨sr, 0⟩ }) := by
  refine ⟨rfl, by simp [segmDeletedCall, SEGMOD_SILENT], ?_, ?_⟩
  · simp [get_member_type, h, Option.getD]
  · intro h1 h2 h3 h4 sr hsr
    simp [get_member_type, h1, h2, h3, h4, hsr, h, Option.getD]

/-- C6 witness: an enum-typed member flag with a `tid`-less extra
record carrying serial 1. -/
theorem missing_optional_fields_witness :
    segmDeletedCall ⟨0, none⟩ = SegEffect.delSegm 0 SEGMOD_SILENT ∧
    get_member_type (fun _ => 0) 0x800000 { serial := some 1 } =
      get_member_type (fun _ => 0) 0x800000 { serial := some 1, tid := some 0 } ∧
    get_member_type (fun _ => 0) 0x800000 { serial := some 1 } =
      some { ec := some ⟨1, 0⟩ } :=
  ⟨(missing_optional_fields (fun _ => 0) 0x800000 0 { serial := some 1 } rfl).2.1,
    (missing_optional_fields (fun _ => 0) 0x800000 0 { serial := some 1 } rfl).2.2.1,
    (missing_optional_fields (fun _ => 0) 0x800000 0 { serial := some 1 } rfl).2.2.2
      (by decide) (by decide) (by decide) (by decide) 1 rfl⟩

/-- C8 counterexample: `Event.decode_bytes` uses `raw_unicode_escape`,
which interprets a backslash-u escape: the six bytes of `\u0041`
decode to the one-character string `A`, which re-encodes to the single
byte `0x41` — so the raw codec pair is not a verbatim byte
passthrough. -/
theorem codec_round_trip_counterexample :
    (Event.decode_bytes (.bytes [0x5C, 0x75, 0x30, 0x30, 0x34, 0x31])).bind
        (fun s => Event.encode_bytes (.str s)) ≠
      some [0x5C, 0x75, 0x30, 0x30, 0x34, 0x31] := by
  have hd : rawDecode [0x5C, 0x75, 0x30, 0x30, 0x34, 0x31] = some [0x41] := by
    rw [rawDecode_cons,
      show List.drop 5 ([0x75, 0x30, 0x30, 0x34, 0x31] : List Nat) = [] from rfl,
      rawDecode_nil]
    decide
  show (rawDecode [0x5C, 0x75, 0x30, 0x30, 0x34, 0x31]).bind
      (fun s => some (pyRawEncode s)) ≠ some [0x5C, 0x75, 0x30, 0x30, 0x34, 0x31]
  rw [hd]
  decide

/-- C8 (amended): `Event.encode ∘ Event.decode` is the identity on
UTF-8-valid byte strings and `Event.decode ∘ Event.encode` the identity
on unicode (scalar) strings; `encode_bytes ∘ decode_bytes` is the
identity on byte strings in which no backslash is immediately followed
by `u` or `U` (on other byte strings the `raw_unicode_escape` escape
processing breaks the passthrough). -/
theorem codec_round_trip :
    (∀ b s : List Nat, Event.decode (.bytes b) = some s →
      Event.encode (.str s) = some b) ∧
    (∀ s : List Nat, s.all isScalar = true →
      (Event.encode (.str s)).bind (fun b => Event.decode (.bytes b)) = some s) ∧
    (∀ b : List Nat, (∀ x ∈ b, x < 0x100) → noRawEscape b = true →
      (Event.decode_bytes (.bytes b)).bind (fun s => Event.encode_bytes (.str s)) =
        some b) := by
  refine ⟨?_, ?_, ?_⟩
  · intro b s h
    obtain ⟨ha, he⟩ := utf8Decode_inv b.length b s le_rfl h
    show pyEncodeUtf8 s = some b
    unfold pyEncodeUtf8
    rw [if_pos ha, he]
  · intro s hs
    show (pyEncodeUtf8 s).bind (fun b => Event.decode (.bytes b)) = some s
    unfold pyEncodeUtf8
    rw [if_pos hs]
    show utf8Decode (utf8EncodeAll s) = some s
    exact utf8_decode_encodeAll s hs
  · intro b hlt hne
    show (rawDecode b).bind (fun s => some (pyRawEncode s)) = some b
    rw [rawDecode_noEsc b.length b le_rfl hne]
    show some (pyRawEncode b) = some b
    rw [pyRawEncode_id b hlt]

/-- C8 witness: é (U+00E9) round-trips through both UTF-8 directions,
and a backslash not followed by `u`/`U` passes through the raw pair. -/
theorem codec_round_trip_witness :
    Event.encode (.str [0xE9]) = some [0xC3, 0xA9] ∧
    (Event.encode (.str [0x48, 0xE9])).bind (fun b => Event.decode (.bytes b)) =
      some [0x48, 0xE9] ∧
    (Event.decode_bytes (.bytes [0x5C, 0x61])).bind
        (fun s => Event.encode_bytes (.str s)) = some [0x5C, 0x61] :=
  ⟨codec_round_trip.1 [0xC3, 0xA9] [0xE9]
      (by simp [Event.decode, utf8Decode_cons, utf8Decode_nil]),
    codec_round_trip.2.1 [0x48, 0xE9] (by decide),
    codec_round_trip.2.2 [0x5C, 0x61] (by decide) (by decide)⟩

/-- C10 witness: from the construction state (everything unset), saving
changes neither a stored `project` value nor the absent `tick`. -/
theorem save_netnode_frame_witness :
    hashstr (save_netnode (initState [("project", "x")])).node "project" =
      hashstr (initState [("project", "x")]).node "project" ∧
    hashstr (save_netnode (initState [("project", "x")])).node "tick" =
      hashstr (initState [("project", "x")]).node "tick" :=
  ⟨(save_netnode_frame _).1 (by decide), (save_netnode_frame _).2.2.2.1 (by decide)⟩

end IdarlingSpec
